import Mathlib

/-!
Verification of the shardmonster shard-movement engine (`shardmonster/sharder.py`)
against its natural-language specification.

The Python source is shallowly embedded: documents are association lists from
string field names to natural-number values, collections are lists of documents
in cursor order, the oplog is a list of entries in `$natural` order, and every
fallible operation returns `Except String`.  Machine behaviour that the claims
depend on (duplicate-key errors on `_id`, upsert semantics, `$set`, `delete_many`
with `$in`) is modelled explicitly on these lists.
-/

set_option autoImplicit false

namespace Shardmonster

variable {α : Type}

/-!  ### The throttled batch engine

`batched_cursor_iterator(cursor, batch_size_fn)` from the source appends each
record to the current batch and then compares `len(batch) >= batch_size_fn()`,
so the size function is invoked once per record.  The embedding makes the call
schedule explicit: the `n`-th invocation of the size function receives argument
`n`, and one invocation happens right after each record is appended, so call
`n` observes the tunable's value at the time record `n` is consumed. -/

def batchedAux (batch_size_fn : Nat → Nat) : List α → List α → Nat → List (List α)
  | [], batch, _ =>
    match batch with
    | [] => []
    | b :: bs => [b :: bs]
  | r :: rest, batch, calls =>
    let batch2 := batch ++ [r]
    if batch_size_fn calls ≤ batch2.length then
      batch2 :: batchedAux batch_size_fn rest [] (calls + 1)
    else
      batchedAux batch_size_fn rest batch2 (calls + 1)

def batched_cursor_iterator (records : List α) (batch_size_fn : Nat → Nat) :
    List (List α) :=
  batchedAux batch_size_fn records [] 0

/-- Modelled from the spec: the **batch-boundary snapshot rule** of §5 says the
worker reads each tunable "exactly once per batch — never mid-batch".  This
variant reads the size function exactly once per batch, at the moment the
batch's first record is consumed (argument = that record's index, so its reads
line up with the code's per-record read schedule), and never re-reads it while
the batch accumulates. -/
def specOncePerBatchAux (batch_size_fn : Nat → Nat) :
    List α → List α → Nat → Nat → List (List α)
  | [], batch, _, _ =>
    match batch with
    | [] => []
    | b :: bs => [b :: bs]
  | r :: rest, batch, idx, size =>
    let size2 :=
      match batch with
      | [] => batch_size_fn idx
      | _ :: _ => size
    let batch2 := batch ++ [r]
    if size2 ≤ batch2.length then
      batch2 :: specOncePerBatchAux batch_size_fn rest [] (idx + 1) 0
    else
      specOncePerBatchAux batch_size_fn rest batch2 (idx + 1) size2

def specOncePerBatchIterator (records : List α) (batch_size_fn : Nat → Nat) :
    List (List α) :=
  specOncePerBatchAux batch_size_fn records [] 0 0

/-- Chunking with a fixed batch size, used to compare the two read schedules
when the tunable never changes. -/
def chunkAux (k : Nat) : List α → List α → List (List α)
  | [], batch =>
    match batch with
    | [] => []
    | b :: bs => [b :: bs]
  | r :: rest, batch =>
    let batch2 := batch ++ [r]
    if k ≤ batch2.length then
      batch2 :: chunkAux k rest []
    else
      chunkAux k rest batch2

theorem batchedAux_const (k : Nat) :
    ∀ (l batch : List α) (calls : Nat),
      batchedAux (fun _ => k) l batch calls = chunkAux k l batch := by
  intro l
  induction l with
  | nil => intro batch calls; rfl
  | cons r rest ih =>
    intro batch calls
    simp only [batchedAux, chunkAux]
    split
    · rw [ih [] (calls + 1)]
    · rw [ih (batch ++ [r]) (calls + 1)]

theorem specOncePerBatchAux_const (k : Nat) :
    ∀ (l batch : List α) (idx size : Nat), (batch = [] ∨ size = k) →
      specOncePerBatchAux (fun _ => k) l batch idx size = chunkAux k l batch := by
  intro l
  induction l with
  | nil => intro batch idx size _; rfl
  | cons r rest ih =>
    intro batch idx size hsize
    cases batch with
    | nil =>
      simp only [specOncePerBatchAux, chunkAux]
      split
      · rw [ih [] (idx + 1) 0 (Or.inl rfl)]
      · rw [ih ([] ++ [r]) (idx + 1) k (Or.inr rfl)]
    | cons b bs =>
      have hk : size = k := by
        rcases hsize with h | h
        · exact absurd h (by simp)
        · exact h
      subst hk
      simp only [specOncePerBatchAux, chunkAux]
      split
      · rw [ih [] (idx + 1) 0 (Or.inl rfl)]
      · rw [ih ((b :: bs) ++ [r]) (idx + 1) size (Or.inr rfl)]

theorem batchedAux_flatten (f : Nat → Nat) :
    ∀ (l batch : List α) (calls : Nat),
      (batchedAux f l batch calls).flatten = batch ++ l := by
  intro l
  induction l with
  | nil =>
    intro batch calls
    cases batch with
    | nil => rfl
    | cons b bs => simp [batchedAux]
  | cons r rest ih =>
    intro batch calls
    simp only [batchedAux]
    split
    · simp [ih [] (calls + 1)]
    · simp [ih (batch ++ [r]) (calls + 1)]

theorem batchedAux_ne_nil (f : Nat → Nat) :
    ∀ (l batch : List α) (calls : Nat) (b : List α),
      b ∈ batchedAux f l batch calls → b ≠ [] := by
  intro l
  induction l with
  | nil =>
    intro batch calls b hb
    cases batch with
    | nil => simp [batchedAux] at hb
    | cons x xs =>
      simp only [batchedAux, List.mem_singleton] at hb
      subst hb; simp
  | cons r rest ih =>
    intro batch calls b hb
    simp only [batchedAux] at hb
    split at hb
    · rcases List.mem_cons.1 hb with h | h
      · subst h; simp
      · exact ih [] (calls + 1) b h
    · exact ih (batch ++ [r]) (calls + 1) b hb

/-- C10: for every finite input sequence and every batch-size function, the
batches yielded by `batched_cursor_iterator` form an order-preserving partition
of the input — their concatenation is exactly the input sequence — and no
yielded batch is empty. -/
theorem batched_cursor_iterator_partition (records : List α) (batch_size_fn : Nat → Nat) :
    (batched_cursor_iterator records batch_size_fn).flatten = records ∧
      ∀ b ∈ batched_cursor_iterator records batch_size_fn, b ≠ [] := by
  constructor
  · simpa using batchedAux_flatten batch_size_fn records [] 0
  · intro b hb
    exact batchedAux_ne_nil batch_size_fn records [] 0 b hb

/-- C10 witness: the partition property evaluated on a concrete run. -/
theorem batched_cursor_iterator_partition_witness :
    (batched_cursor_iterator [10, 20, 30, 40, 50] (fun _ => 2)).flatten
        = [10, 20, 30, 40, 50] ∧
      ∀ b ∈ batched_cursor_iterator [10, 20, 30, 40, 50] (fun _ => 2), b ≠ [] :=
  batched_cursor_iterator_partition [10, 20, 30, 40, 50] (fun _ => 2)

/-- C1 counterexample: the claim says the worker reads the batch-size tunable
exactly once per batch, never mid-batch, so that a decrease while a batch is
accumulating does not affect the batch in flight.  The code instead re-reads
the tunable after every record: with six records and a tunable that is `5`
while the first three records are consumed and `2` afterwards, the code yields
`[[0, 1, 2, 3], [4, 5]]` — the in-flight batch is cut short at the new size —
while the once-per-batch snapshot rule yields `[[0, 1, 2, 3, 4], [5]]`. -/
theorem batch_size_read_mid_batch_counterexample :
    batched_cursor_iterator [0, 1, 2, 3, 4, 5] (fun n => if n < 3 then 5 else 2) ≠
      specOncePerBatchIterator [0, 1, 2, 3, 4, 5] (fun n => if n < 3 then 5 else 2) := by
  decide

/-- C1 (amended): the worker re-reads the batch-size tunable once per record
rather than once per batch, so a decrease mid-accumulation takes effect on the
batch in flight (it is emitted as soon as its length reaches the newly read
size).  When the tunable does not change during the run, the per-record read
schedule coincides with the once-per-batch snapshot rule: every batch boundary
respects the (constant) size. -/
theorem batched_cursor_iterator_const_size (k : Nat) (records : List α) :
    batched_cursor_iterator records (fun _ => k) =
      specOncePerBatchIterator records (fun _ => k) := by
  unfold batched_cursor_iterator specOncePerBatchIterator
  rw [batchedAux_const, specOncePerBatchAux_const]
  exact Or.inl rfl

/-- C1 witness: the amended statement evaluated on a concrete run. -/
theorem batched_cursor_iterator_const_size_witness :
    batched_cursor_iterator [0, 1, 2, 3, 4] (fun _ => 2) =
      specOncePerBatchIterator [0, 1, 2, 3, 4] (fun _ => 2) :=
  batched_cursor_iterator_const_size 2 [0, 1, 2, 3, 4]

/-!  ### Documents and collections

A document is an association list of fields (MongoDB documents have unique
keys; `dlookup` takes the first binding).  Field values are natural numbers —
the claims only compare values for equality.  A collection is a list of
documents in cursor order; MongoDB enforces `_id` uniqueness on insert, which
the embedding reflects through the duplicate-key check of `insertSwallowDup`. -/

abbrev Doc := List (String × Nat)

def dlookup (k : String) : Doc → Option Nat
  | [] => none
  | kv :: rest => if kv.1 = k then some kv.2 else dlookup k rest

/-- A document satisfies a find query (an equality selector) when every field
of the query is present with the queried value. -/
def matchesQuery (query d : Doc) : Bool :=
  query.all (fun kv => decide (dlookup kv.1 d = some kv.2))

/-- Python dict equality (`source_document == entry['o']`): same keys, same
values, order-insensitive. -/
def docEq (a b : Doc) : Bool :=
  a.all (fun kv => decide (dlookup kv.1 b = some kv.2)) &&
    b.all (fun kv => decide (dlookup kv.1 a = some kv.2))

/-- `merge(*dicts)` = `dict(chain(*(d.items() for d in dicts)))` for two
arguments: bindings of `b` override bindings of `a`.  (Python keeps the first
occurrence's position for a duplicated key; since queries are consumed through
order-insensitive `dlookup`/`matchesQuery`, only the override matters.) -/
def merge (a b : Doc) : Doc :=
  a.filter (fun kv => (dlookup kv.1 b).isNone) ++ b

def pick (target_key : List String) (record : Doc) : Doc :=
  record.filter (fun kv => decide (kv.1 ∈ target_key))

def without_id (record : Doc) : Doc :=
  record.filter (fun kv => !(decide (kv.1 = "_id")))

/-- `entry['o']['_id']`.  Oplog entries always carry `_id` in their payload
(or, for updates, in `o2`); a missing `_id` is modelled as `0`. -/
def idOf (d : Doc) : Nat := (dlookup "_id" d).getD 0

/-- `collection.find(query)`: the documents matching the query, in cursor
order. -/
def findQuery (coll : List Doc) (query : Doc) : List Doc :=
  coll.filter (matchesQuery query)

/-- `fetch_one(cursor)`: first result or `None`. -/
def fetch_one (docs : List Doc) : Option Doc := docs.head?

/-!  ### Oplog entries and replay -/

inductive OpKind where
  | i
  | u
  | d
deriving DecidableEq

structure OplogEntry where
  ts : Nat
  ns : String
  op : OpKind
  o : Doc
  o2 : Doc := []
deriving DecidableEq

/-- `target.insert(doc, w=1)` with the caller swallowing
`DuplicateKeyError`: the insert succeeds unless a document with the same
`_id` is present, and the duplicate-key failure leaves the collection
unchanged. -/
def insertSwallowDup (doc : Doc) (coll : List Doc) : List Doc :=
  if coll.any (fun d => decide (dlookup "_id" d = dlookup "_id" doc)) then coll
  else coll ++ [doc]

/-- `target.update(selector, full_document, upsert=True)` with a replacement
document: replace the first document matching the selector, or append the
replacement when nothing matches (the replacement carries its own `_id`). -/
def updateReplace (sel newDoc : Doc) : List Doc → List Doc
  | [] => [newDoc]
  | d :: rest =>
    if matchesQuery sel d then newDoc :: rest
    else d :: updateReplace sel newDoc rest

/-- `target.remove(\x7b'_id': x\x7d, w=1)`: removes every document whose `_id`
is `x`. -/
def removeById (x : Nat) (coll : List Doc) : List Doc :=
  coll.filter (fun d => !(matchesQuery [("_id", x)] d))

/-- `replay_oplog_entry(entry, shard_selector, source, target)`: the per-entry
sync rule.  The source collection is only read; the function returns the new
target collection. -/
def replay_oplog_entry (entry : OplogEntry) (shard_selector : Doc)
    (source target : List Doc) : List Doc :=
  match entry.op with
  | .i =>
    let query := merge shard_selector [("_id", idOf entry.o)]
    if (fetch_one (findQuery source query)).isSome then
      insertSwallowDup entry.o target
    else target
  | .u =>
    let query := merge shard_selector [("_id", idOf entry.o2)]
    match fetch_one (findQuery source query) with
    | some source_document =>
      if docEq source_document entry.o then target
      else updateReplace [("_id", idOf source_document)] source_document target
    | none => target
  | .d =>
    let query := merge shard_selector [("_id", idOf entry.o)]
    if (fetch_one (findQuery target query)).isSome then
      removeById (idOf entry.o) target
    else target

/-!  ### Lemmas about queries and the replay primitives -/

theorem matchesQuery_iff {query d : Doc} :
    matchesQuery query d = true ↔ ∀ kv ∈ query, dlookup kv.1 d = some kv.2 := by
  simp [matchesQuery, List.all_eq_true]

theorem matchesQuery_single {k : String} {v : Nat} {d : Doc} :
    matchesQuery [(k, v)] d = true ↔ dlookup k d = some v := by
  simp [matchesQuery]

theorem mem_merge_right {a b : Doc} {kv : String × Nat} (h : kv ∈ b) :
    kv ∈ merge a b :=
  List.mem_append_right _ h

theorem matchesQuery_merge_id {sel : Doc} {x : Nat} {d : Doc}
    (h : matchesQuery (merge sel [("_id", x)]) d = true) :
    dlookup "_id" d = some x :=
  matchesQuery_iff.1 h ("_id", x) (mem_merge_right (by simp))

theorem fetch_one_findQuery_matches {c : List Doc} {q d : Doc}
    (h : fetch_one (findQuery c q) = some d) : matchesQuery q d = true := by
  have hmem : d ∈ c.filter (matchesQuery q) := by
    unfold fetch_one findQuery at h
    cases hf : c.filter (matchesQuery q) with
    | nil => rw [hf] at h; simp at h
    | cons y ys =>
      rw [hf] at h
      simp only [List.head?, Option.some.injEq] at h
      subst h
      exact hf ▸ List.mem_cons_self y ys
  exact List.of_mem_filter hmem

theorem updateReplace_fetch {x : Nat} {d : Doc} (hd : dlookup "_id" d = some x) :
    ∀ t : List Doc,
      fetch_one (findQuery (updateReplace [("_id", x)] d t) [("_id", x)]) = some d := by
  have hm : matchesQuery [("_id", x)] d = true := matchesQuery_single.2 hd
  intro t
  induction t with
  | nil => simp [updateReplace, findQuery, fetch_one, List.filter_cons, hm]
  | cons e t ih =>
    by_cases he : matchesQuery [("_id", x)] e = true
    · simp [updateReplace, he, findQuery, fetch_one, List.filter_cons, hm]
    · simp only [updateReplace, he, if_false, Bool.false_eq_true]
      simpa [findQuery, fetch_one, List.filter_cons, he] using ih

theorem updateReplace_idem {x : Nat} {d : Doc} (hd : dlookup "_id" d = some x) :
    ∀ t : List Doc,
      updateReplace [("_id", x)] d (updateReplace [("_id", x)] d t) =
        updateReplace [("_id", x)] d t := by
  have hm : matchesQuery [("_id", x)] d = true := matchesQuery_single.2 hd
  intro t
  induction t with
  | nil => simp [updateReplace, hm]
  | cons e t ih =>
    by_cases he : matchesQuery [("_id", x)] e = true
    · simp [updateReplace, he, hm]
    · simp [updateReplace, he, ih]

theorem insertSwallowDup_idem (doc : Doc) (t : List Doc) :
    insertSwallowDup doc (insertSwallowDup doc t) = insertSwallowDup doc t := by
  by_cases h : (t.any fun d => decide (dlookup "_id" d = dlookup "_id" doc)) = true
  · simp [insertSwallowDup, h]
  · simp only [insertSwallowDup, h, if_false, Bool.false_eq_true]
    rw [if_pos]
    simp [List.any_append]

theorem findQuery_removeById (sel : Doc) (x : Nat) (t : List Doc) :
    findQuery (removeById x t) (merge sel [("_id", x)]) = [] := by
  apply List.filter_eq_nil_iff.2
  intro d hd
  unfold removeById at hd
  have hkeep := List.of_mem_filter hd
  intro hq
  have h1 : dlookup "_id" d = some x := matchesQuery_merge_id hq
  have h2 : matchesQuery [("_id", x)] d = true := matchesQuery_single.2 h1
  simp [h2] at hkeep

/-!  ### C2 and C8 -/

/-- C2: for every oplog entry with `op = 'u'` whose shard selector applies,
the sync engine reads the current source document selected by
`\x7bshard_field: shard_key, _id: o2._id\x7d`; if that document exists and differs
from the recorded post-image `o`, it writes the full current source document
to the destination as an upsert keyed on `_id` (afterwards the destination's
document at that `_id` is exactly the current source document); if the source
document is absent or equals `o`, the destination is left unchanged. -/
theorem update_replay_uses_current_source (entry : OplogEntry) (sel : Doc)
    (source target : List Doc) (hu : entry.op = .u) :
    (∀ d, fetch_one (findQuery source (merge sel [("_id", idOf entry.o2)])) = some d →
        docEq d entry.o = false →
        replay_oplog_entry entry sel source target =
            updateReplace [("_id", idOf entry.o2)] d target ∧
          fetch_one (findQuery (replay_oplog_entry entry sel source target)
              [("_id", idOf entry.o2)]) = some d) ∧
    (∀ d, fetch_one (findQuery source (merge sel [("_id", idOf entry.o2)])) = some d →
        docEq d entry.o = true →
        replay_oplog_entry entry sel source target = target) ∧
    (fetch_one (findQuery source (merge sel [("_id", idOf entry.o2)])) = none →
        replay_oplog_entry entry sel source target = target) := by
  refine ⟨?_, ?_, ?_⟩
  · intro d hfind hne
    have hid : dlookup "_id" d = some (idOf entry.o2) :=
      matchesQuery_merge_id (fetch_one_findQuery_matches hfind)
    have hidd : idOf d = idOf entry.o2 := by simp [idOf, hid]
    have hrepl : replay_oplog_entry entry sel source target =
        updateReplace [("_id", idOf entry.o2)] d target := by
      simp [replay_oplog_entry, hu, hfind, hne, hidd]
    refine ⟨hrepl, ?_⟩
    rw [hrepl]
    exact updateReplace_fetch hid target
  · intro d hfind heq
    simp [replay_oplog_entry, hu, hfind, heq]
  · intro hfind
    simp [replay_oplog_entry, hu, hfind]

/-- C2 witness: a concrete `u` entry whose recorded post-image is stale — the
current source document is written to the destination keyed on `_id`. -/
theorem update_replay_uses_current_source_witness :
    replay_oplog_entry
        ⟨4, "db.c", .u, [("_id", 1), ("tenant", 7), ("v", 2)], [("_id", 1)]⟩
        [("tenant", 7)]
        [[("_id", 1), ("tenant", 7), ("v", 3)]]
        [[("_id", 1), ("tenant", 7), ("v", 1)]] =
      updateReplace [("_id", 1)] [("_id", 1), ("tenant", 7), ("v", 3)]
        [[("_id", 1), ("tenant", 7), ("v", 1)]] := by
  exact (update_replay_uses_current_source
      ⟨4, "db.c", .u, [("_id", 1), ("tenant", 7), ("v", 2)], [("_id", 1)]⟩
      [("tenant", 7)]
      [[("_id", 1), ("tenant", 7), ("v", 3)]]
      [[("_id", 1), ("tenant", 7), ("v", 1)]] rfl).1
    [("_id", 1), ("tenant", 7), ("v", 3)] (by decide) (by decide) |>.1

/-- C8 (amended): replaying any single oplog entry a second time, against the
same (unchanged) source, is a no-op on the destination — the per-entry replay
rules are idempotent. -/
theorem replay_oplog_entry_idempotent (entry : OplogEntry) (sel : Doc)
    (source target : List Doc) :
    replay_oplog_entry entry sel source (replay_oplog_entry entry sel source target) =
      replay_oplog_entry entry sel source target := by
  cases hop : entry.op with
  | i =>
    by_cases hf :
        (fetch_one (findQuery source (merge sel [("_id", idOf entry.o)]))).isSome = true
    · simp [replay_oplog_entry, hop, hf, insertSwallowDup_idem]
    · simp [replay_oplog_entry, hop, hf]
  | u =>
    cases hf : fetch_one (findQuery source (merge sel [("_id", idOf entry.o2)])) with
    | none => simp [replay_oplog_entry, hop, hf]
    | some sd =>
      by_cases heq : docEq sd entry.o = true
      · simp [replay_oplog_entry, hop, hf, heq]
      · have hid : dlookup "_id" sd = some (idOf entry.o2) :=
          matchesQuery_merge_id (fetch_one_findQuery_matches hf)
        have hidd : idOf sd = idOf entry.o2 := by simp [idOf, hid]
        have hid2 : dlookup "_id" sd = some (idOf sd) := by rw [hidd]; exact hid
        simp [replay_oplog_entry, hop, hf, heq, updateReplace_idem hid2]
  | d =>
    by_cases hf :
        (fetch_one (findQuery target (merge sel [("_id", idOf entry.o)]))).isSome = true
    · have h2 : fetch_one (findQuery (removeById (idOf entry.o) target)
          (merge sel [("_id", idOf entry.o)])) = none := by
        rw [findQuery_removeById]
        rfl
      simp [replay_oplog_entry, hop, hf, h2]
    · simp [replay_oplog_entry, hop, hf]

/-- C8 witness: the amended per-entry idempotence evaluated on a concrete
delete entry. -/
theorem replay_oplog_entry_idempotent_witness :
    replay_oplog_entry ⟨9, "db.c", .d, [("_id", 1)], []⟩ [("tenant", 7)]
        [] (replay_oplog_entry ⟨9, "db.c", .d, [("_id", 1)], []⟩ [("tenant", 7)]
          [] [[("_id", 1), ("tenant", 7)]]) =
      replay_oplog_entry ⟨9, "db.c", .d, [("_id", 1)], []⟩ [("tenant", 7)]
        [] [[("_id", 1), ("tenant", 7)]] :=
  replay_oplog_entry_idempotent ⟨9, "db.c", .d, [("_id", 1)], []⟩ [("tenant", 7)]
    [] [[("_id", 1), ("tenant", 7)]]

/-!  ### The sync engine

`_sync_from_oplog` checks that the resume position is still covered by the
oplog (`_oplog_still_contains_ts`), then folds the per-entry replay over the
tailed entries (`tail_oplog_for_collection` filters by `ts >= oplog_pos` and
namespace), setting `oplog_pos = entry['ts']` after each applied entry.  The
oplog list is in `$natural` order; an error result carries no updated
destination — nothing was applied. -/

def tailOplogForCollection (oplog : List OplogEntry) (ns : String) (oplog_pos : Nat) :
    List OplogEntry :=
  oplog.filter (fun e => decide (oplog_pos ≤ e.ts) && decide (e.ns = ns))

/-- `_oplog_still_contains_ts`: compares `oplog_pos` with the oldest entry's
`ts`.  On an empty oplog the Python (`find(...)[0]`) raises `IndexError`,
modelled as `none`. -/
def oplog_still_contains_ts (oplog : List OplogEntry) (oplog_pos : Nat) : Option Bool :=
  oplog.head?.map (fun oldest => decide (oldest.ts ≤ oplog_pos))

def oplogWindowErrorMsg : String := "Cannot sync from oplog as oplog_pos is not in it"

def syncFromOplog (oplog : List OplogEntry) (ns : String) (shard_selector : Doc)
    (source target : List Doc) (oplog_pos : Nat) : Except String (Nat × List Doc) :=
  match oplog_still_contains_ts oplog oplog_pos with
  | none => .error ("IndexError: empty oplog")
  | some false => .error (oplogWindowErrorMsg)
  | some true =>
    .ok ((tailOplogForCollection oplog ns oplog_pos).foldl
      (fun acc e => (e.ts, replay_oplog_entry e shard_selector source acc.2))
      (oplog_pos, target))

/-- The driver's caching-duration loop: `_sync_from_oplog` called `n` further
times, each starting from the previous call's returned position and
destination. -/
def syncLoop (oplog : List OplogEntry) (ns : String) (sel : Doc) (source : List Doc) :
    Nat → Nat × List Doc → Except String (Nat × List Doc)
  | 0, pt => .ok pt
  | n + 1, pt =>
    match syncFromOplog oplog ns sel source pt.2 pt.1 with
    | .error e => .error e
    | .ok pt2 => syncLoop oplog ns sel source n pt2

/-- The sequence of values taken by `oplog_pos` during one sync call: the
starting position followed by each applied entry's `ts`, in application
order. -/
def syncPositionsTrace (oplog : List OplogEntry) (ns : String) (pos : Nat) : List Nat :=
  pos :: (tailOplogForCollection oplog ns pos).map (fun e => e.ts)

/-!  ### C3, C4, and the C8 counterexample -/

/-- C3: with a nonempty oplog whose oldest entry is `oldest`, a sync
invocation raises the "oplog window missed" error (applying nothing — the
error carries no updated destination) exactly when `oldest.ts` is strictly
greater than the resume position; when `oldest.ts ≤ oplog_pos` the check
passes and replay proceeds. -/
theorem sync_window_missed_iff (oldest : OplogEntry) (rest : List OplogEntry)
    (ns : String) (sel : Doc) (source target : List Doc) (pos : Nat) :
    ((syncFromOplog (oldest :: rest) ns sel source target pos =
        .error oplogWindowErrorMsg) ↔ pos < oldest.ts) ∧
      (oldest.ts ≤ pos →
        ∃ r, syncFromOplog (oldest :: rest) ns sel source target pos = .ok r) := by
  by_cases hle : oldest.ts ≤ pos
  · have hd : decide (oldest.ts ≤ pos) = true := decide_eq_true hle
    constructor
    · simp [syncFromOplog, oplog_still_contains_ts, hd, Nat.not_lt.2 hle]
    · intro _
      refine ⟨(tailOplogForCollection (oldest :: rest) ns pos).foldl
        (fun acc e => (e.ts, replay_oplog_entry e sel source acc.2))
        (pos, target), ?_⟩
      unfold syncFromOplog
      rw [show oplog_still_contains_ts (oldest :: rest) pos = some true from by
        simp [oplog_still_contains_ts, hd]]
  · have hlt : pos < oldest.ts := Nat.not_le.1 hle
    have hd : decide (oldest.ts ≤ pos) = false := decide_eq_false hle
    constructor
    · simp [syncFromOplog, oplog_still_contains_ts, hd, hlt]
    · intro h
      exact absurd h hle

/-- C3 witness: a resume position older than the whole oplog raises the
window error, while a covered position replays fine. -/
theorem sync_window_missed_iff_witness :
    (3 : Nat) < 5 ∧
      syncFromOplog [⟨5, "db.c", .d, [("_id", 1)], []⟩] "db.c" [("tenant", 7)]
          [] [] 3 = .error oplogWindowErrorMsg :=
  ⟨by decide,
    ((sync_window_missed_iff ⟨5, "db.c", .d, [("_id", 1)], []⟩ [] "db.c"
      [("tenant", 7)] [] [] 3).1).2 (by decide)⟩

theorem mem_tailOplog_pos_le {oplog : List OplogEntry} {ns : String} {pos : Nat}
    {e : OplogEntry} (h : e ∈ tailOplogForCollection oplog ns pos) : pos ≤ e.ts := by
  have hp := List.of_mem_filter h
  simp only [Bool.and_eq_true, decide_eq_true_eq] at hp
  exact hp.1

theorem foldl_replay_fst_ge (sel : Doc) (source : List Doc) (p0 : Nat) :
    ∀ (l : List OplogEntry) (p : Nat) (t : List Doc), p0 ≤ p →
      (∀ e ∈ l, p0 ≤ e.ts) →
      p0 ≤ (l.foldl (fun acc e => (e.ts, replay_oplog_entry e sel source acc.2))
        (p, t)).1 := by
  intro l
  induction l with
  | nil => intro p t hp _; exact hp
  | cons e l ih =>
    intro p t hp hall
    simp only [List.foldl_cons]
    exact ih e.ts _ (hall e (by simp)) (fun e2 he2 => hall e2 (by simp [he2]))

theorem syncFromOplog_pos_le {oplog : List OplogEntry} {ns : String} {sel : Doc}
    {source target : List Doc} {pos : Nat} {r : Nat × List Doc}
    (h : syncFromOplog oplog ns sel source target pos = .ok r) : pos ≤ r.1 := by
  unfold syncFromOplog at h
  cases hc : oplog_still_contains_ts oplog pos with
  | none => rw [hc] at h; simp at h
  | some b =>
    rw [hc] at h
    cases b with
    | false => simp at h
    | true =>
      simp only [Except.ok.injEq] at h
      subst h
      exact foldl_replay_fst_ge sel source pos _ pos target (Nat.le_refl pos)
        (fun e he => mem_tailOplog_pos_le he)

theorem syncLoop_pos_le (oplog : List OplogEntry) (ns : String) (sel : Doc)
    (source : List Doc) :
    ∀ (n : Nat) (pt r : Nat × List Doc),
      syncLoop oplog ns sel source n pt = .ok r → pt.1 ≤ r.1 := by
  intro n
  induction n with
  | zero =>
    intro pt r h
    simp only [syncLoop, Except.ok.injEq] at h
    subst h
    exact Nat.le_refl _
  | succ n ih =>
    intro pt r h
    simp only [syncLoop] at h
    cases hs : syncFromOplog oplog ns sel source pt.2 pt.1 with
    | error e => rw [hs] at h; simp at h
    | ok pt2 =>
      rw [hs] at h
      exact Nat.le_trans (syncFromOplog_pos_le hs) (ih pt2 r h)

/-- C4: with a ts-ordered oplog, the values taken by `oplog_pos` during one
sync call are monotonically non-decreasing (the trace is a `≤`-chain), every
successful sync returns a position at least as large as the one it started
from, and chaining sync invocations — as the migration driver does — never
decreases the position. -/
theorem oplog_pos_monotone (oplog : List OplogEntry) (ns : String) (sel : Doc)
    (source target : List Doc) (pos : Nat)
    (hsorted : oplog.Pairwise (fun a b => a.ts ≤ b.ts)) :
    (syncPositionsTrace oplog ns pos).Pairwise (· ≤ ·) ∧
      (∀ r, syncFromOplog oplog ns sel source target pos = .ok r → pos ≤ r.1) ∧
      (∀ n pt r, syncLoop oplog ns sel source n pt = .ok r → pt.1 ≤ r.1) := by
  refine ⟨?_, fun r h => syncFromOplog_pos_le h, syncLoop_pos_le oplog ns sel source⟩
  apply List.pairwise_cons.2
  constructor
  · intro t ht
    rcases List.mem_map.1 ht with ⟨e, he, rfl⟩
    exact mem_tailOplog_pos_le he
  · exact List.pairwise_map.2 (hsorted.filter _)

/-- C4 witness: the monotonicity statement applied to a concrete sorted
oplog. -/
theorem oplog_pos_monotone_witness :
    (syncPositionsTrace
        [⟨5, "db.c", .d, [("_id", 1)], []⟩, ⟨6, "db.c", .d, [("_id", 2)], []⟩]
        "db.c" 5).Pairwise (· ≤ ·) :=
  (oplog_pos_monotone
    [⟨5, "db.c", .d, [("_id", 1)], []⟩, ⟨6, "db.c", .d, [("_id", 2)], []⟩]
    "db.c" [("tenant", 7)] [] [] 5 (by decide)).1

/-- C8 counterexample: running the sync engine twice from the same starting
timestamp is not always the same as running it once.  Source holds
`\x7b_id: 1, tenant: 7\x7d`; the oplog window holds an insert whose recorded
payload `\x7b_id: 1, tenant: 5\x7d` does not match the shard selector
`\x7btenant: 7\x7d`, followed by a delete of `_id 1`.  The first pass leaves the
destination empty (duplicate-key insert swallowed, then the copied document
deleted); a second pass from the same timestamp re-inserts the stale payload,
which the delete rule then cannot see (its shard field does not match), so the
destination ends nonempty. -/
theorem sync_twice_not_idempotent :
    ¬ (∀ (oplog : List OplogEntry) (ns : String) (sel : Doc)
        (source t0 : List Doc) (pos : Nat) (r1 r2 : Nat × List Doc),
        syncFromOplog oplog ns sel source t0 pos = .ok r1 →
        syncFromOplog oplog ns sel source r1.2 pos = .ok r2 →
        r2.2 = r1.2) := by
  intro h
  have h1 : syncFromOplog
      [⟨10, "db.c", .i, [("_id", 1), ("tenant", 5)], []⟩,
        ⟨11, "db.c", .d, [("_id", 1)], []⟩]
      "db.c" [("tenant", 7)]
      [[("_id", 1), ("tenant", 7)]] [[("_id", 1), ("tenant", 7)]] 10 =
      .ok (11, []) := by rfl
  have h2 : syncFromOplog
      [⟨10, "db.c", .i, [("_id", 1), ("tenant", 5)], []⟩,
        ⟨11, "db.c", .d, [("_id", 1)], []⟩]
      "db.c" [("tenant", 7)]
      [[("_id", 1), ("tenant", 7)]] [] 10 =
      .ok (11, [[("_id", 1), ("tenant", 5)]]) := by rfl
  have := h _ _ _ _ _ _ _ _ h1 h2
  simp at this

/-!  ### Shard statuses and the copy / delete engines -/

inductive ShardStatus where
  | atRest
  | migratingCopy
  | migratingSync
  | postMigrationPausedAtDestination
  | postMigrationDelete
deriving DecidableEq

def MIGRATION_PHASES : List ShardStatus :=
  [.migratingCopy, .migratingSync, .postMigrationPausedAtDestination,
    .postMigrationDelete]

/-- One `UpdateOne` operation of a bulk write.  The update document is always
of the `$set` shape in this code, so only the `$set` payload is carried. -/
structure UpdateOneOp where
  filter : Doc
  set : Doc
  upsert : Bool
deriving DecidableEq

/-- `batch_of_upsert_ops(batch, target_key)`. -/
def batch_of_upsert_ops (batch : List Doc) (target_key : List String) :
    List UpdateOneOp :=
  batch.map (fun record =>
    { filter := pick target_key record, set := without_id record, upsert := true })

/-- A document of the destination cluster's `config.collections` metadata:
its namespace, its `dropped` flag, and its shard-key document. -/
structure ConfigCollectionDoc where
  id : String
  dropped : Bool
  key : Doc
deriving DecidableEq

/-- `sniff_mongos_shard_key(collection)`: `find_one` on `config.collections`
for the namespace with `dropped: False`; `None` when nothing matches or when
the lookup raises `OperationFailure`. -/
def sniff_mongos_shard_key (op_failure : Bool) (config : List ConfigCollectionDoc)
    (ns : String) : Option (List String) :=
  if op_failure then none
  else
    match config.find? (fun c => decide (c.id = ns) && !c.dropped) with
    | none => none
    | some info => some (info.key.map (fun kv => kv.1))

/-- `sniff_mongos_shard_key(target_collection) or ['_id']` from `_do_copy`. -/
def targetKeyFor (op_failure : Bool) (config : List ConfigCollectionDoc)
    (ns : String) : List String :=
  (sniff_mongos_shard_key op_failure config ns).getD ["_id"]

/-- Apply `$set` of `s` to document `d`: bindings of `s` override `d`. -/
def applySet (d s : Doc) : Doc := merge d s

/-- Replace-into-first-match for an `UpdateOne`: `some` of the new collection
when a document matched the filter, `none` otherwise. -/
def setFirstMatch (flt s : Doc) : List Doc → Option (List Doc)
  | [] => none
  | d :: rest =>
    if matchesQuery flt d then some (applySet d s :: rest)
    else (setFirstMatch flt s rest).map (fun r => d :: r)

/-- One `UpdateOne(filter, \x7b$set: s\x7d, upsert)` against a collection:
update the first matching document, else upsert a fresh document built from
the filter's equality fields with `$set` applied.  Returns the new collection
and the `nUpserted` contribution (0 or 1). -/
def applyUpdateOne (coll : List Doc) (op : UpdateOneOp) : List Doc × Nat :=
  match setFirstMatch op.filter op.set coll with
  | some coll2 => (coll2, 0)
  | none => if op.upsert then (coll ++ [applySet op.filter op.set], 1) else (coll, 0)

/-- `bulk_write(ops, ordered=True)`: apply the operations in order, summing
`nUpserted`. -/
def bulkWriteOrdered (coll : List Doc) (ops : List UpdateOneOp) : List Doc × Nat :=
  ops.foldl
    (fun acc op =>
      ((applyUpdateOne acc.1 op).1, acc.2 + (applyUpdateOne acc.1 op).2))
    (coll, 0)

/-- The write plan of the copy phase: one ordered bulk write of upsert ops per
batch drained from the cursor. -/
def copyBulkWrites (records : List Doc) (batch_size_fn : Nat → Nat)
    (target_key : List String) : List (List UpdateOneOp) :=
  (batched_cursor_iterator records batch_size_fn).map
    (fun b => batch_of_upsert_ops b target_key)

def copyStateErrorMsg : String := "Shard not in copy state (phase 1)"

/-- `_do_copy`: fail hard unless the shard is in `MIGRATING_COPY`; otherwise
scan the source filtered by the shard field, drain it in batches of the
current `insert_batch_size`, and issue one ordered bulk upsert per batch.
Returns the final destination collection and the total upserted count (the
manager's `inserted` increment). -/
def do_copy (status : ShardStatus) (source : List Doc) (shard_field : String)
    (shard_key : Nat) (insert_batch_size : Nat → Nat) (target_key : List String)
    (target : List Doc) : Except String (List Doc × Nat) :=
  if status = ShardStatus.migratingCopy then
    .ok ((batched_cursor_iterator (findQuery source [(shard_field, shard_key)])
        insert_batch_size).foldl
      (fun acc batch =>
        ((bulkWriteOrdered acc.1 (batch_of_upsert_ops batch target_key)).1,
          acc.2 + (bulkWriteOrdered acc.1 (batch_of_upsert_ops batch target_key)).2))
      (target, 0))
  else .error (copyStateErrorMsg)

def deleteStateErrorMsg : String := "Shard not in delete state"

/-- `_delete_source_data`: fail hard unless the shard is in
`POST_MIGRATION_DELETE`; otherwise scan `read_docs` (hidden secondary or
primary) for matching `_id`s with projection `\x7b_id: 1\x7d` and issue
`delete_many(\x7b_id: \x7b$in: batch\x7d\x7d)` against the primary per batch of the
current `delete_batch_size`.  Returns the remaining primary collection and
the total deleted count. -/
def delete_source_data (status : ShardStatus) (read_docs : List Doc)
    (shard_field : String) (shard_key : Nat) (delete_batch_size : Nat → Nat)
    (current : List Doc) : Except String (List Doc × Nat) :=
  if status = ShardStatus.postMigrationDelete then
    .ok ((batched_cursor_iterator
        ((findQuery read_docs [(shard_field, shard_key)]).map
          (fun d => d.filter (fun kv => decide (kv.1 = "_id"))))
        delete_batch_size).foldl
      (fun acc batch =>
        (acc.1.filter (fun d => !(decide (idOf d ∈ batch.map idOf))),
          acc.2 + (acc.1.length -
            (acc.1.filter (fun d => !(decide (idOf d ∈ batch.map idOf)))).length)))
      (current, 0))
  else .error (deleteStateErrorMsg)

/-!  ### C5 and C6 -/

theorem dlookup_pick (tk : List String) (k : String) :
    ∀ r : Doc, dlookup k (pick tk r) = if k ∈ tk then dlookup k r else none := by
  intro r
  induction r with
  | nil => simp [pick, dlookup]
  | cons kv r ih =>
    by_cases hmem : kv.1 ∈ tk
    · by_cases hk : kv.1 = k
      · subst hk
        simp [pick, List.filter_cons, hmem, dlookup]
      · simp only [pick, List.filter_cons] at *
        simp [hmem, dlookup, hk, ih]
    · by_cases hk : kv.1 = k
      · subst hk
        simp only [pick, List.filter_cons] at *
        simp [hmem, dlookup, ih]
      · simp only [pick, List.filter_cons] at *
        simp [hmem, dlookup, hk, ih]

theorem dlookup_without_id_id :
    ∀ r : Doc, dlookup "_id" (without_id r) = none := by
  intro r
  induction r with
  | nil => rfl
  | cons kv r ih =>
    unfold without_id at ih ⊢
    rw [List.filter_cons]
    by_cases hk : kv.1 = "_id"
    · simp [hk, ih]
    · simp [hk, dlookup, ih]

theorem dlookup_without_id_other (k : String) (hk : k ≠ "_id") :
    ∀ r : Doc, dlookup k (without_id r) = dlookup k r := by
  intro r
  induction r with
  | nil => rfl
  | cons kv r ih =>
    unfold without_id at ih ⊢
    rw [List.filter_cons]
    by_cases hkv : kv.1 = "_id"
    · simp [hkv, dlookup, Ne.symm hk, ih]
    · simp [hkv, dlookup, ih]

/-- C5: the copy engine's per-batch write is one ordered bulk of upsert
`UpdateOne` operations — selector = projection of the document onto the
target key, update = `$set` of the document minus `_id` — and the target key
is the destination's reported shard-key field list when the namespace is
reported sharded, `['_id']` otherwise (config lookup failed, or found
nothing). -/
theorem copy_bulk_upsert_structure (op_failure : Bool)
    (config : List ConfigCollectionDoc) (ns : String) (tk : List String)
    (source target : List Doc) (shard_field : String) (shard_key : Nat)
    (insert_batch_size : Nat → Nat) :
    (op_failure = true → targetKeyFor op_failure config ns = ["_id"]) ∧
    (config.find? (fun c => decide (c.id = ns) && !c.dropped) = none →
      targetKeyFor op_failure config ns = ["_id"]) ∧
    (∀ info, op_failure = false →
      config.find? (fun c => decide (c.id = ns) && !c.dropped) = some info →
      targetKeyFor op_failure config ns = info.key.map (fun kv => kv.1)) ∧
    (∀ batch : List Doc, batch_of_upsert_ops batch tk = batch.map (fun record =>
      { filter := pick tk record, set := without_id record, upsert := true })) ∧
    (∀ (r : Doc) (k : String),
      dlookup k (pick tk r) = if k ∈ tk then dlookup k r else none) ∧
    (∀ r : Doc, dlookup "_id" (without_id r) = none) ∧
    (∀ (r : Doc) (k : String), k ≠ "_id" →
      dlookup k (without_id r) = dlookup k r) ∧
    (do_copy .migratingCopy source shard_field shard_key insert_batch_size tk
        target =
      .ok ((copyBulkWrites (findQuery source [(shard_field, shard_key)])
          insert_batch_size tk).foldl
        (fun acc ops =>
          ((bulkWriteOrdered acc.1 ops).1, acc.2 + (bulkWriteOrdered acc.1 ops).2))
        (target, 0))) := by
  refine ⟨?_, ?_, ?_, ?_, ?_, ?_, ?_, ?_⟩
  · intro h; simp [targetKeyFor, sniff_mongos_shard_key, h]
  · intro h; simp [targetKeyFor, sniff_mongos_shard_key, h]
  · intro info hof hfind
    simp [targetKeyFor, sniff_mongos_shard_key, hof, hfind]
  · intro batch; rfl
  · intro r k; exact dlookup_pick tk k r
  · intro r; exact dlookup_without_id_id r
  · intro r k hk; exact dlookup_without_id_other k hk r
  · simp [do_copy, copyBulkWrites, List.foldl_map]

/-- C5 witness: the structure theorem applied at a concrete destination
config (namespace sharded on `tenant`) and a concrete batch. -/
theorem copy_bulk_upsert_structure_witness :
    targetKeyFor false [⟨"db.c", false, [("tenant", 1)]⟩] "db.c" = ["tenant"] ∧
      batch_of_upsert_ops [[("_id", 1), ("tenant", 7)]] ["tenant"] =
        [{ filter := [("tenant", 7)], set := [("tenant", 7)], upsert := true }] := by
  have h := copy_bulk_upsert_structure false [⟨"db.c", false, [("tenant", 1)]⟩]
    "db.c" ["tenant"] [] [] "tenant" 7 (fun _ => 1000)
  constructor
  · exact h.2.2.1 ⟨"db.c", false, [("tenant", 1)]⟩ rfl (by decide)
  · rw [h.2.2.2.1 [[("_id", 1), ("tenant", 7)]]]
    decide

/-- C6: entering the copy engine with a persisted status other than
`MIGRATING_COPY`, or the delete engine with a status other than
`POST_MIGRATION_DELETE`, raises the phase error before performing any write —
the error result carries no modified collection and no counter increment. -/
theorem precondition_failure_no_writes (status status2 : ShardStatus)
    (source read_docs target current : List Doc) (shard_field : String)
    (shard_key : Nat) (insert_batch_size delete_batch_size : Nat → Nat)
    (target_key : List String) :
    (status ≠ ShardStatus.migratingCopy →
      do_copy status source shard_field shard_key insert_batch_size target_key
          target =
        .error copyStateErrorMsg) ∧
    (status2 ≠ ShardStatus.postMigrationDelete →
      delete_source_data status2 read_docs shard_field shard_key
          delete_batch_size current =
        .error deleteStateErrorMsg) := by
  constructor
  · intro h; simp [do_copy, h]
  · intro h; simp [delete_source_data, h]

/-- C6 witness: both precondition failures at the `AT_REST` status. -/
theorem precondition_failure_no_writes_witness :
    do_copy ShardStatus.atRest [] "tenant" 7 (fun _ => 1000) ["_id"] [] =
        .error copyStateErrorMsg ∧
      delete_source_data ShardStatus.atRest [] "tenant" 7 (fun _ => 1000) [] =
        .error deleteStateErrorMsg :=
  ⟨(precondition_failure_no_writes ShardStatus.atRest ShardStatus.atRest
      [] [] [] [] "tenant" 7 (fun _ => 1000) (fun _ => 1000) ["_id"]).1
    (by decide),
    (precondition_failure_no_writes ShardStatus.atRest ShardStatus.atRest
      [] [] [] [] "tenant" 7 (fun _ => 1000) (fun _ => 1000) ["_id"]).2
    (by decide)⟩

/-!  ### The migration entry point (C7) -/

/-- The manager handle returned by `_begin_migration`: tunables, counters,
phase label, and whether its worker was started. -/
structure ShardMovementManager where
  collection_name : String
  shard_key : Nat
  new_location : String
  delete_throttle : Option Nat
  insert_throttle : Option Nat
  delete_batch_size : Nat
  insert_batch_size : Nat
  inserted : Nat
  deleted : Nat
  phase : Option String
  worker_started : Bool
deriving DecidableEq

/-- Modelled from the spec: `metadata.are_migrations_happening()` (the
routing-metadata store, §6) — true when any shard's persisted status is one
of the `MIGRATION_PHASES`.  The routing store itself is outside the given
source. -/
def are_migrations_happening (shard_statuses : List ShardStatus) : Bool :=
  shard_statuses.any (fun s => decide (s ∈ MIGRATION_PHASES))

def beginMigrationErrorMsg : String :=
  "Cannot start migration when another migration is in progress"

/-- `_begin_migration`: refuse when a migration is happening; otherwise build
the manager (counters zero, no phase yet), start its worker and return it. -/
def begin_migration (shard_statuses : List ShardStatus) (collection_name : String)
    (shard_key : Nat) (new_location : String)
    (delete_throttle insert_throttle : Option Nat)
    (delete_batch_size insert_batch_size : Nat) :
    Except String ShardMovementManager :=
  if are_migrations_happening shard_statuses then .error (beginMigrationErrorMsg)
  else
    .ok
      { collection_name := collection_name, shard_key := shard_key,
        new_location := new_location, delete_throttle := delete_throttle,
        insert_throttle := insert_throttle,
        delete_batch_size := delete_batch_size,
        insert_batch_size := insert_batch_size,
        inserted := 0, deleted := 0, phase := none, worker_started := true }

/-- C7: a request to begin a migration while any shard is in a
`MIGRATION_PHASES` status fails with the "migration in progress" error before
any worker is spawned or state written (the error carries no manager); when
no migration is happening, the entry point returns a freshly started manager
handle with zero counters. -/
theorem begin_migration_guard (shard_statuses : List ShardStatus)
    (collection_name : String) (shard_key : Nat) (new_location : String)
    (delete_throttle insert_throttle : Option Nat)
    (delete_batch_size insert_batch_size : Nat) :
    ((∃ s ∈ shard_statuses, s ∈ MIGRATION_PHASES) →
      begin_migration shard_statuses collection_name shard_key new_location
          delete_throttle insert_throttle delete_batch_size insert_batch_size =
        .error beginMigrationErrorMsg) ∧
    ((∀ s ∈ shard_statuses, s ∉ MIGRATION_PHASES) →
      begin_migration shard_statuses collection_name shard_key new_location
          delete_throttle insert_throttle delete_batch_size insert_batch_size =
        .ok
          { collection_name := collection_name, shard_key := shard_key,
            new_location := new_location, delete_throttle := delete_throttle,
            insert_throttle := insert_throttle,
            delete_batch_size := delete_batch_size,
            insert_batch_size := insert_batch_size,
            inserted := 0, deleted := 0, phase := none,
            worker_started := true }) := by
  constructor
  · intro h
    rcases h with ⟨s, hs, hph⟩
    have hb : are_migrations_happening shard_statuses = true :=
      List.any_eq_true.2 ⟨s, hs, decide_eq_true hph⟩
    simp [begin_migration, hb]
  · intro h
    have hb : are_migrations_happening shard_statuses = false := by
      simp only [are_migrations_happening]
      rw [List.any_eq_false]
      intro s hs
      simp [h s hs]
    simp [begin_migration, hb]

/-- C7 witness: refused while a shard is mid-migration; granted at rest. -/
theorem begin_migration_guard_witness :
    begin_migration [ShardStatus.migratingCopy] "users" 7 "B/appdb"
        none none 1000 1000 = .error beginMigrationErrorMsg ∧
      begin_migration [ShardStatus.atRest] "users" 7 "B/appdb"
          none none 1000 1000 =
        .ok
          { collection_name := "users", shard_key := 7,
            new_location := "B/appdb", delete_throttle := none,
            insert_throttle := none, delete_batch_size := 1000,
            insert_batch_size := 1000, inserted := 0, deleted := 0,
            phase := none, worker_started := true } :=
  ⟨(begin_migration_guard [ShardStatus.migratingCopy] "users" 7 "B/appdb"
      none none 1000 1000).1 ⟨ShardStatus.migratingCopy, by decide, by decide⟩,
    (begin_migration_guard [ShardStatus.atRest] "users" 7 "B/appdb"
      none none 1000 1000).2 (by decide)⟩

/-!  ### The migration driver (C9)

`ShardMovementThread.run` drives one migration end to end.  The world state
visible to the claims is gathered in `MigrationState`; the routing-store
transitions (`api.start_migration`, `set_shard_to_migration_status`,
`set_shard_at_rest`) are external to the given source and are modelled from
the spec (§6) as plain status/location writes.  The wall-clock caching loop
is modelled by an arbitrary number `nloop` of additional sync rounds, and the
hidden secondary is modelled as an up-to-date replica of the source. -/

structure MigrationState where
  status : ShardStatus
  location : String
  newLocation : String
  source : List Doc
  target : List Doc
  oplog : List OplogEntry
  inserted : Nat
  deleted : Nat
deriving DecidableEq

/-- Modelled from the spec: `api.start_migration(collection, shard_key,
new_location)` — atomic transition `AT_REST → MIGRATING_COPY`, recording the
destination (§6). -/
def apiStartMigration (new_location : String) (st : MigrationState) :
    Except String MigrationState :=
  if st.status = ShardStatus.atRest then
    .ok { st with status := ShardStatus.migratingCopy,
                  newLocation := new_location }
  else .error ("Shard not at rest")

/-- `_get_oplog_pos`: the `ts` of the most recent oplog entry
(`find` sorted by `$natural` descending, first element — `IndexError` when
the oplog is empty). -/
def getOplogPos (st : MigrationState) : Except String Nat :=
  match st.oplog.getLast? with
  | none => .error ("IndexError: empty oplog")
  | some e => .ok e.ts

/-- `ShardMovementThread.run`: start the migration, record the oplog
position, copy, flip to `MIGRATING_SYNC` and sync, run the caching-duration
sync loop, flip to `POST_MIGRATION_PAUSED_AT_DESTINATION` and sync once more,
flip to `POST_MIGRATION_DELETE` and delete twice (hidden secondary pass, then
primary pass), finally commit `AT_REST` at the new location. -/
def runMigration (ns shard_field : String) (shard_key : Nat)
    (new_location : String) (target_key : List String)
    (insert_bs delete_bs : Nat → Nat) (nloop : Nat) (st : MigrationState) :
    Except String MigrationState :=
  match apiStartMigration new_location st with
  | .error e => .error e
  | .ok st1 =>
  match getOplogPos st1 with
  | .error e => .error e
  | .ok pos0 =>
  match do_copy st1.status st1.source shard_field shard_key insert_bs
      target_key st1.target with
  | .error e => .error e
  | .ok copied =>
  let st2 := { st1 with target := copied.1,
                        inserted := st1.inserted + copied.2,
                        status := ShardStatus.migratingSync }
  match syncFromOplog st2.oplog ns [(shard_field, shard_key)] st2.source
      st2.target pos0 with
  | .error e => .error e
  | .ok pt1 =>
  match syncLoop st2.oplog ns [(shard_field, shard_key)] st2.source nloop pt1 with
  | .error e => .error e
  | .ok pt2 =>
  let st3 := { st2 with target := pt2.2,
                        status := ShardStatus.postMigrationPausedAtDestination }
  match syncFromOplog st3.oplog ns [(shard_field, shard_key)] st3.source
      st3.target pt2.1 with
  | .error e => .error e
  | .ok pt3 =>
  let st4 := { st3 with target := pt3.2,
                        status := ShardStatus.postMigrationDelete }
  match delete_source_data st4.status st4.source shard_field shard_key
      delete_bs st4.source with
  | .error e => .error e
  | .ok del1 =>
  let st5 := { st4 with source := del1.1, deleted := st4.deleted + del1.2 }
  match delete_source_data st5.status st5.source shard_field shard_key
      delete_bs st5.source with
  | .error e => .error e
  | .ok del2 =>
  let st6 := { st5 with source := del2.1, deleted := st5.deleted + del2.2 }
  .ok { st6 with status := ShardStatus.atRest, location := new_location }

theorem mem_of_getLastOpt {β : Type} {l : List β} {a : β}
    (h : l.getLast? = some a) : a ∈ l := by
  have hx : a ∈ l.getLast? := h
  rcases List.mem_getLast?_eq_getLast hx with ⟨hne, rfl⟩
  exact List.getLast_mem hne

theorem do_copy_no_matches (source : List Doc) (shard_field : String)
    (shard_key : Nat) (insert_bs : Nat → Nat) (target_key : List String)
    (target : List Doc) (h : findQuery source [(shard_field, shard_key)] = []) :
    do_copy ShardStatus.migratingCopy source shard_field shard_key insert_bs
        target_key target = .ok (target, 0) := by
  simp [do_copy, h, batched_cursor_iterator, batchedAux]

theorem tailOplog_nil (oplog : List OplogEntry) (ns : String) (pos : Nat)
    (h : ∀ e ∈ oplog, e.ns ≠ ns) : tailOplogForCollection oplog ns pos = [] := by
  apply List.filter_eq_nil_iff.2
  intro e he
  simp [h e he]

theorem syncFromOplog_no_matches (oplog : List OplogEntry) (ns : String)
    (sel : Doc) (src tgt : List Doc) (pos : Nat) (h0 : OplogEntry)
    (hh : oplog.head? = some h0) (hle : h0.ts ≤ pos)
    (hns : ∀ e ∈ oplog, e.ns ≠ ns) :
    syncFromOplog oplog ns sel src tgt pos = .ok (pos, tgt) := by
  have hc : oplog_still_contains_ts oplog pos = some true := by
    simp [oplog_still_contains_ts, hh, decide_eq_true hle]
  unfold syncFromOplog
  rw [hc]
  show Except.ok ((tailOplogForCollection oplog ns pos).foldl
      (fun acc e => (e.ts, replay_oplog_entry e sel src acc.2)) (pos, tgt)) =
    Except.ok ((pos, tgt) : Nat × List Doc)
  rw [tailOplog_nil oplog ns pos hns]
  rfl

theorem syncLoop_no_matches (oplog : List OplogEntry) (ns : String)
    (sel : Doc) (src tgt : List Doc) (pos : Nat) (h0 : OplogEntry)
    (hh : oplog.head? = some h0) (hle : h0.ts ≤ pos)
    (hns : ∀ e ∈ oplog, e.ns ≠ ns) :
    ∀ n, syncLoop oplog ns sel src n (pos, tgt) = .ok (pos, tgt) := by
  intro n
  induction n with
  | zero => rfl
  | succ n ih =>
    simp only [syncLoop]
    rw [syncFromOplog_no_matches oplog ns sel src tgt pos h0 hh hle hns]
    exact ih

theorem delete_no_matches (read_docs : List Doc) (shard_field : String)
    (shard_key : Nat) (delete_bs : Nat → Nat) (current : List Doc)
    (h : findQuery read_docs [(shard_field, shard_key)] = []) :
    delete_source_data ShardStatus.postMigrationDelete read_docs shard_field
        shard_key delete_bs current = .ok (current, 0) := by
  simp [delete_source_data, h, batched_cursor_iterator, batchedAux]

/-- C9: for a shard whose source collection has no documents matching the
shard selector and whose oplog has no entries for the namespace, the full
migration run completes: the copy phase drains no batches (so it issues no
bulk writes and `inserted` stays 0), every sync round applies no entries, the
two delete passes remove nothing (`deleted` stays 0), and the shard is
committed back to `AT_REST` at the new location. -/
theorem empty_shard_migration_completes (ns shard_field : String)
    (shard_key : Nat) (new_location : String) (target_key : List String)
    (insert_bs delete_bs : Nat → Nat) (nloop : Nat) (st : MigrationState)
    (hrest : st.status = ShardStatus.atRest)
    (hsource : ∀ d ∈ st.source, matchesQuery [(shard_field, shard_key)] d = false)
    (hoplog_ns : ∀ e ∈ st.oplog, e.ns ≠ ns)
    (hoplog_ne : st.oplog ≠ [])
    (hsorted : st.oplog.Pairwise (fun a b => a.ts ≤ b.ts))
    (hins : st.inserted = 0) (hdel : st.deleted = 0) :
    batched_cursor_iterator (findQuery st.source [(shard_field, shard_key)])
        insert_bs = [] ∧
      (∀ pos, tailOplogForCollection st.oplog ns pos = []) ∧
      runMigration ns shard_field shard_key new_location target_key insert_bs
          delete_bs nloop st =
        .ok { status := ShardStatus.atRest, location := new_location,
              newLocation := new_location, source := st.source,
              target := st.target, oplog := st.oplog,
              inserted := 0, deleted := 0 } := by
  have hfq : findQuery st.source [(shard_field, shard_key)] = [] := by
    apply List.filter_eq_nil_iff.2
    intro d hd
    simp [hsource d hd]
  refine ⟨by rw [hfq]; rfl, fun pos => tailOplog_nil st.oplog ns pos hoplog_ns, ?_⟩
  obtain ⟨g, hg⟩ : ∃ g, st.oplog.getLast? = some g := by
    cases hgl : st.oplog.getLast? with
    | none => exact absurd (List.getLast?_eq_none_iff.1 hgl) hoplog_ne
    | some g => exact ⟨g, rfl⟩
  obtain ⟨h0, hh⟩ : ∃ h0, st.oplog.head? = some h0 := by
    cases ho : st.oplog with
    | nil => exact absurd ho hoplog_ne
    | cons e0 rest => exact ⟨e0, rfl⟩
  have hle : h0.ts ≤ g.ts := by
    have hgmem : g ∈ st.oplog := mem_of_getLastOpt hg
    cases ho : st.oplog with
    | nil => exact absurd ho hoplog_ne
    | cons e0 rest =>
      rw [ho] at hh
      have he0 : e0 = h0 := by simpa [List.head?] using hh
      subst he0
      rw [ho] at hgmem
      rcases List.mem_cons.1 hgmem with hgg | hgg
      · rw [hgg]
      · exact (List.pairwise_cons.1 (ho ▸ hsorted)).1 g hgg
  have hApi : apiStartMigration new_location st =
      .ok { st with status := ShardStatus.migratingCopy,
                    newLocation := new_location } := by
    simp [apiStartMigration, hrest]
  have hPos : getOplogPos
      { st with status := ShardStatus.migratingCopy,
                newLocation := new_location } = .ok g.ts := by
    simp [getOplogPos, hg]
  have hCopy := do_copy_no_matches st.source shard_field shard_key insert_bs
    target_key st.target hfq
  have hSync := syncFromOplog_no_matches st.oplog ns
    [(shard_field, shard_key)] st.source st.target g.ts h0 hh hle hoplog_ns
  have hLoop := syncLoop_no_matches st.oplog ns [(shard_field, shard_key)]
    st.source st.target g.ts h0 hh hle hoplog_ns nloop
  have hDel := delete_no_matches st.source shard_field shard_key delete_bs
    st.source hfq
  simp only [runMigration, hApi, hPos, hCopy, hSync, hLoop, hDel]
  simp [hins, hdel]

/-- C9 witness: a concrete empty shard (one unrelated document, one unrelated
oplog entry) migrated end to end. -/
theorem empty_shard_migration_completes_witness :
    runMigration "db.users" "tenant" 7 "B/appdb" ["_id"] (fun _ => 1000)
        (fun _ => 1000) 3
        { status := ShardStatus.atRest, location := "A/appdb",
          newLocation := "", source := [[("_id", 4), ("tenant", 9)]],
          target := [], oplog := [⟨5, "db.other", .i, [("_id", 2)], []⟩],
          inserted := 0, deleted := 0 } =
      .ok { status := ShardStatus.atRest, location := "B/appdb",
            newLocation := "B/appdb", source := [[("_id", 4), ("tenant", 9)]],
            target := [], oplog := [⟨5, "db.other", .i, [("_id", 2)], []⟩],
            inserted := 0, deleted := 0 } :=
  (empty_shard_migration_completes "db.users" "tenant" 7 "B/appdb" ["_id"]
    (fun _ => 1000) (fun _ => 1000) 3
    { status := ShardStatus.atRest, location := "A/appdb",
      newLocation := "", source := [[("_id", 4), ("tenant", 9)]],
      target := [], oplog := [⟨5, "db.other", .i, [("_id", 2)], []⟩],
      inserted := 0, deleted := 0 }
    rfl (by decide) (by decide) (by decide) (by decide) rfl rfl).2.2

end Shardmonster
